import Mathlib

set_option maxHeartbeats 1000000
set_option maxRecDepth 4000

/-!
Shallow embedding of `pqConsole.cpp` (pqConsole: interfacing SWI-Prolog and Qt).

The file models the data the extension predicates of `pqConsole.cpp` operate on
(Prolog terms, Qt meta-properties and their values, menus, windows, console
widgets) and each predicate's control flow, and proves the spec's claims about
them.  Definitions are translated from the C++ source; the few pieces of the
repository that are not part of `pqConsole.cpp` itself (the `ConsoleEdit`
class and its `exec_sync` rendezvous) are modelled from the specification and
marked as such.
-/

/-- Prolog terms as seen by the foreign predicates, following the
SWI-Prolog C++ interface (`PlTerm`): `v.type()` distinguishes variables,
integers, atoms, floats and compounds.  Floats are never inspected
arithmetically by the source (they are only stored verbatim into a
`double` property), so the payload is kept opaque as its bit pattern. -/
inductive PTerm where
  | pvar : PTerm
  | pint : Int → PTerm
  | patom : String → PTerm
  | pfloat : Int → PTerm
  | pcomp : String → List PTerm → PTerm

/-- `PlTerm::arity()`: atoms have arity 0, compounds the number of their
arguments; on any other term `PL_get_name_arity` fails and the call throws
a type error, modelled by `none`. -/
def termArity : PTerm → Option Nat
  | .patom _ => some 0
  | .pcomp _ as => some as.length
  | _ => none

/-- `PlTerm::name()`: the functor name of an atom or compound; throws
(`none`) otherwise. -/
def termName : PTerm → Option String
  | .patom a => some a
  | .pcomp f _ => some f
  | _ => none

/-- The `QVariant::Type` of a Qt meta-property, restricted to the kinds
`unify` in `pqConsole.cpp` dispatches on. -/
inductive QKind where
  | qbool | qint | quint | qstring | qdouble | qother
  deriving Repr, DecidableEq

/-- A `QMetaProperty`: its declared kind, whether it is an enumerated
integer (`isEnumType`), whether the enumeration is a flag/bitmask type
(`isFlagType`), and the enumeration's name/value table (`QMetaEnum`). -/
structure MetaProp where
  kind : QKind
  isEnum : Bool
  isFlag : Bool
  enumPairs : List (String × Int)
  deriving Repr, DecidableEq

/-- A stored property value (the `QVariant` held by the object).  Doubles
are kept as opaque bit patterns, matching their use in the source. -/
inductive QVal where
  | vb : Bool → QVal
  | vi : Int → QVal
  | vs : String → QVal
  | vd : Int → QVal
  deriving Repr, DecidableEq

/-- `QVariant::toBool` on the stored value. -/
def QVal.toBool : QVal → Bool
  | .vb b => b
  | .vi n => n ≠ 0
  | _ => false

/-- `QVariant::toInt` on the stored value. -/
def QVal.toInt : QVal → Int
  | .vi n => n
  | .vb b => if b then 1 else 0
  | _ => 0

/-- `QVariant::toUInt` on the stored value (stored unsigned values are
kept in range by the write path). -/
def QVal.toUInt : QVal → Int
  | .vi n => n
  | .vb b => if b then 1 else 0
  | _ => 0

/-- `QVariant::toString` on the stored value. -/
def QVal.toQString : QVal → String
  | .vs s => s
  | _ => ""

/-- `QMetaEnum::keyToValue`: the value of the first pair whose key matches,
or -1 when the key is unknown (exactly the sentinel the source tests). -/
def keyToValue (ps : List (String × Int)) (k : String) : Int :=
  match ps.find? (fun q => q.1 = k) with
  | some q => q.2
  | none => -1

/-- `QMetaEnum::valueToKey`: the key of the first pair whose value matches,
or null (`none`). -/
def valueToKey (ps : List (String × Int)) (n : Int) : Option String :=
  (ps.find? (fun q => q.2 = n)).map (fun q => q.1)

/-- The C++ cast `qint32(v)` applied to an arbitrary Prolog integer:
two's-complement truncation to 32 signed bits. -/
def qint32 (n : Int) : Int := (n + 2 ^ 31) % 2 ^ 32 - 2 ^ 31

/-- Conversion of a signed 32-bit value into an unsigned property slot
(`QVariant` int-to-uint conversion): reduction mod 2^32. -/
def toUInt32 (n : Int) : Int := n % 2 ^ 32

/-- Result of `unify`: success returns the (possibly updated) property
value and the (possibly bound) term; `uerr` is the thrown
`PlException`; `uabort` marks a failed `Q_ASSERT` in a build with
assertions enabled (the process aborts before anything is interpreted). -/
inductive URes where
  | uok : QVal → PTerm → URes
  | uerr : String → URes
  | uabort : URes

/-- The property bridge `unify(const QMetaProperty&, QObject*, PlTerm)` of
`pqConsole.cpp` (lines 107-183), as a function of the property's
meta-data `p`, its current value `cur`, and the term `v`.  `assertOn`
states whether `Q_ASSERT` is active (debug build) or compiled out.
Every branch mirrors the source's `switch` on `v.type()` and `p.type()`;
all uncovered combinations fall through to
`throw PlException(A("property type mismatch"))`. -/
def unify (assertOn : Bool) (p : MetaProp) (cur : QVal) (v : PTerm) : URes :=
  match v with
  | .pvar =>
    match p.kind with
    | .qbool => .uok cur (.patom (if cur.toBool then "true" else "false"))
    | .qint =>
      if p.isEnum then
        if assertOn && p.isFlag then .uabort
        else
          match valueToKey p.enumPairs cur.toInt with
          | some key => .uok cur (.patom key)
          | none => .uok cur (.pint cur.toInt)
      else .uok cur (.pint cur.toInt)
    | .quint => .uok cur (.pint cur.toUInt)
    | .qstring => .uok cur (.patom cur.toQString)
    | _ => .uerr "property type mismatch"
  | .pint n =>
    match p.kind with
    | .qint => .uok (.vi (qint32 n)) v
    | .quint => .uok (.vi (toUInt32 (qint32 n))) v
    | _ => .uerr "property type mismatch"
  | .patom s =>
    match p.kind with
    | .qstring => .uok (.vs s) v
    | .qint =>
      if p.isEnum then
        if assertOn && p.isFlag then .uabort
        else
          if keyToValue p.enumPairs s ≠ -1 then .uok (.vi (keyToValue p.enumPairs s)) v
          else .uerr "property type mismatch"
      else .uerr "property type mismatch"
    | _ => .uerr "property type mismatch"
  | .pfloat bits =>
    match p.kind with
    | .qdouble => .uok (.vd bits) v
    | _ => .uerr "property type mismatch"
  | .pcomp _ _ => .uerr "property type mismatch"

/-- A `QAction` inside a pulldown menu: either an actionable item with its
display text and tooltip (the tooltip doubles as storage for the bound
`Module:Goal`, see `add_action`), or a separator.  A separator's
`text()` reads as the empty string; it still has a tooltip slot. -/
inductive MItem where
  | act : String → String → MItem
  | sep : String → MItem
  deriving Repr, DecidableEq

/-- `QAction::text()` of a menu item. -/
def itemText : MItem → String
  | .act l _ => l
  | .sep _ => ""

/-- `QAction::setToolTip` on a menu item. -/
def setItemTip (g : String) : MItem → MItem
  | .act l _ => .act l g
  | .sep _ => .sep g

/-- A top-level `QMenu` of the menu bar: its title (the text of its menu
bar action) and its items. -/
structure Menu where
  label : String
  items : List MItem
  deriving Repr, DecidableEq

/-- `add_action` (lines 272-282): a new action with text `label` and
tooltip `ctxt ++ ":" ++ goal` used as spare storage for `Module:Goal`. -/
def add_action (label ctxt goal : String) : MItem :=
  .act label (ctxt ++ ":" ++ goal)

/-- The second loop of `win_insert_menu`'s closure: insert a fresh menu
titled `label` immediately before the first menu-bar action whose text is
`before`; `none` when no such action exists. -/
def insertBeforeMenu (newm : Menu) (before : String) : List Menu → Option (List Menu)
  | [] => none
  | m :: ms =>
    if m.label = before then some (newm :: m :: ms)
    else (insertBeforeMenu newm before ms).map (fun r => m :: r)

/-- The body of `win_insert_menu`'s closure (lines 291-305), acting on the
menu bar of the main window: no-op when a menu titled `label` already
exists; otherwise insert before `before` when matched; otherwise append
when `before` is the sentinel "-"; otherwise silently do nothing (the
source only logs a debug message). -/
def insertMenuBar (mbar : List Menu) (label before : String) : List Menu :=
  if mbar.any (fun m => m.label = label) then mbar
  else
    match insertBeforeMenu ⟨label, []⟩ before mbar with
    | some mbar2 => mbar2
    | none => if before = "-" then mbar ++ [⟨label, []⟩] else mbar

/-- Insert a new item immediately before the first item whose text is
`before` (`QMenu::insertAction` / `insertSeparator` after the lookup
loop); identity when no item matches (the source only reaches this
function when a match exists). -/
def insertBeforeItem (newIt : MItem) (before : String) : List MItem → List MItem
  | [] => []
  | it :: its =>
    if itemText it = before then newIt :: it :: its
    else it :: insertBeforeItem newIt before its

/-- Update the tooltip of the first item whose text is `label`
(`bc->setToolTip(Goal)` inside the lookup loop of
`win_insert_menu_item`). -/
def setTipFirst (label goal : String) : List MItem → List MItem
  | [] => []
  | it :: its =>
    if itemText it = label then setItemTip goal it :: its
    else it :: setTipFirst label goal its

/-- The entry created for a positional insert in `win_insert_menu_item`:
a separator when `label` is the sentinel "--", else an action bound to
`ctxt ++ ":" ++ goal`. -/
def imiEntry (label goal ctxt : String) : MItem :=
  if label = "--" then .sep "" else add_action label ctxt goal

/-- The per-pulldown body of `win_insert_menu_item`'s closure
(lines 330-354).  Returns the updated menu and whether the closure
executed a `return` (every branch but the synthesized-placeholder one
returns, so only that branch lets the enclosing loop continue). -/
def imiMenu (label before goal ctxt : String) (m : Menu) : Menu × Bool :=
  if label ≠ "--" ∧ m.items.any (fun it => itemText it = label) then
    ({ m with items := setTipFirst label goal m.items }, true)
  else if before = "-" then
    ({ m with items := m.items ++ [imiEntry label goal ctxt] }, true)
  else if m.items.any (fun it => itemText it = before) then
    ({ m with items := insertBeforeItem (imiEntry label goal ctxt) before m.items }, true)
  else
    ({ m with items := m.items ++ [add_action label ctxt goal, add_action before ctxt ""] }, false)

/-- The menu-bar loop of `win_insert_menu_item`'s closure (lines 328-355):
scan the menu bar for actions titled `pulldown`; on a `return` inside the
per-menu body the whole closure exits, otherwise the scan continues. -/
def imiBar (pulldown label before goal ctxt : String) : List Menu → List Menu
  | [] => []
  | m :: ms =>
    if m.label = pulldown then
      let r := imiMenu label before goal ctxt m
      if r.2 then r.1 :: ms else r.1 :: imiBar pulldown label before goal ctxt ms
    else m :: imiBar pulldown label before goal ctxt ms

/-- The parent widget framing a console (`c->parentWidget()`):
whether it is a `QMainWindow`, its title, position, size, visibility,
activation flag and menu bar. -/
structure PWindow where
  isMain : Bool
  title : String
  px : Int
  py : Int
  pw : Int
  ph : Int
  visible : Bool
  active : Bool
  menubar : List Menu
  deriving Repr, DecidableEq

/-- Outcome of processing one `win_window_pos` option: continue with the
updated window, return FALSE (unknown option), or throw (a term access
such as `opt.arity()`, `opt[i]` as `long`, or `opt[1].name()` failed). -/
inductive OptStep where
  | scont : PWindow → OptStep
  | sfalse : OptStep
  | sexc : OptStep
  deriving Repr, DecidableEq

/-- One iteration of the `win_window_pos` option loop (lines 223-255):
dispatch on the pair `(opt.arity(), opt.name())` against the five known
options; `cw`/`chh` are the console's font cell width and height
(`c->fontMetrics().size(0, "Q")`).  `size(W,H)` resizes to
`(cw*W, chh*H)`; `position(X,Y)` moves; `zorder(Z)` is accepted and
inert; `show(B)` shows exactly when the argument's name is "true";
`activate` activates; anything else returns FALSE. -/
def applyOptStep (cw chh : Nat) (w : PWindow) (opt : PTerm) : OptStep :=
  match termArity opt, termName opt with
  | some ar, some nm =>
    if ar = 2 ∧ nm = "size" then
      match opt with
      | .pcomp _ [.pint wc, .pint hc] =>
          .scont { w with pw := (cw : Int) * wc, ph := (chh : Int) * hc }
      | _ => .sexc
    else if ar = 2 ∧ nm = "position" then
      match opt with
      | .pcomp _ [.pint x, .pint y] => .scont { w with px := x, py := y }
      | _ => .sexc
    else if ar = 1 ∧ nm = "zorder" then .scont w
    else if ar = 1 ∧ nm = "show" then
      match opt with
      | .pcomp _ [a] =>
        match termName a with
        | some s => .scont { w with visible := s = "true" }
        | none => .sexc
      | _ => .sexc
    else if ar = 0 ∧ nm = "activate" then .scont { w with active := true }
    else .sfalse
  | _, _ => .sexc

/-- Whether an option matches one of the five known options of
`win_window_pos` by name and arity (the dispatch key the source uses). -/
def knownOpt (t : PTerm) : Bool :=
  match termArity t, termName t with
  | some ar, some nm =>
    if ar = 2 ∧ nm = "size" then true
    else if ar = 2 ∧ nm = "position" then true
    else if ar = 1 ∧ nm = "zorder" then true
    else if ar = 1 ∧ nm = "show" then true
    else if ar = 0 ∧ nm = "activate" then true
    else false
  | _, _ => false

/-- Whether a known option's arguments have the shapes its branch reads
without throwing: integer arguments for `size` and `position`, a named
term for `show`'s argument; `zorder` and `activate` read nothing. -/
def wtOpt (t : PTerm) : Bool :=
  match termArity t, termName t with
  | some ar, some nm =>
    if ar = 2 ∧ nm = "size" then
      match t with
      | .pcomp _ [.pint _, .pint _] => true
      | _ => false
    else if ar = 2 ∧ nm = "position" then
      match t with
      | .pcomp _ [.pint _, .pint _] => true
      | _ => false
    else if ar = 1 ∧ nm = "zorder" then true
    else if ar = 1 ∧ nm = "show" then
      match t with
      | .pcomp _ [a] => (termName a).isSome
      | _ => false
    else if ar = 0 ∧ nm = "activate" then true
    else true
  | _, _ => false

/-- Result of the whole `win_window_pos` option loop, carrying the
window as mutated so far (widget mutations are applied immediately and
are not rolled back on failure). -/
inductive WRes where
  | wtrue : PWindow → WRes
  | wfalse : PWindow → WRes
  | wexc : PWindow → WRes
  deriving Repr, DecidableEq

/-- The `while (options.next(opt))` loop of `win_window_pos`
(lines 220-258): options are applied strictly left to right; the first
unknown option returns FALSE, a throwing term access propagates, and an
exhausted list returns TRUE. -/
def applyOpts (cw chh : Nat) (w : PWindow) : List PTerm → WRes
  | [] => .wtrue w
  | opt :: rest =>
    match applyOptStep cw chh w opt with
    | .scont w1 => applyOpts cw chh w1 rest
    | .sfalse => .wfalse w
    | .sexc => .wexc w

/-- One reflected property of the console object: its name
(`QMetaObject::indexOfProperty` key), its meta-data, and its current
value. -/
structure PropSlot where
  pname : String
  meta : MetaProp
  value : QVal
  deriving Repr, DecidableEq

/-- Modelled from the spec: the `ConsoleEdit` widget class is declared in
`ConsoleEdit.h`, which is not under `src/`; spec sections 3, 4.1 and 6
describe the state the bridge touches — the owning worker thread
identifier, the font cell metrics and pixel size used by `tty_size` and
`win_window_pos`, the command history, the visible text buffer, the
current selection, the console font, the reflected properties
(`console_settings`), and the parent widget framing the console. -/
structure ConsoleEdit where
  thid : Int
  fontCellW : Nat
  fontCellH : Nat
  cwidth : Nat
  cheight : Nat
  history : List String
  textBuf : String
  selection : String
  cfont : String
  props : List PropSlot
  parent : Option PWindow
  deriving Repr, DecidableEq

/-- Modelled from the spec: `ConsoleEdit::match_thread` (declared in the
missing `ConsoleEdit.h`) tests the console's owning-thread marker against
a thread identifier (spec section 4.1). -/
def match_thread (c : ConsoleEdit) (thid : Int) : Bool := c.thid = thid

/-- `console_by_thread` (lines 87-94): depth-first search over the widget
hierarchy for the first console owned by the calling thread.  The state
keeps the hierarchy already flattened in traversal order, so the search
is the first match in that order. -/
def console_by_thread (cs : List ConsoleEdit) (thid : Int) : Option ConsoleEdit :=
  cs.find? (fun c => match_thread c thid)

/-- `console_peek_first` (lines 98-102): the first console in traversal
order, irrespective of thread. -/
def console_peek_first (cs : List ConsoleEdit) : Option ConsoleEdit :=
  cs.head?

/-- The application state a predicate call can observe and mutate: the
consoles of the widget hierarchy (in traversal order), the clipboard,
the persisted font preference, and whether `qApp->quit()` was issued. -/
structure AppState where
  consoles : List ConsoleEdit
  clipboard : String
  prefFont : String
  quitRequested : Bool
  deriving Repr, DecidableEq

/-- Replace the first element satisfying `p` by its image under `f`. -/
def updateFirst (p : α → Bool) (f : α → α) : List α → List α
  | [] => []
  | x :: xs => if p x then f x :: xs else x :: updateFirst p f xs

/-- Apply `f` to the console owned by thread `thid` (the one
`console_by_thread` resolves). -/
def updateConsole (st : AppState) (thid : Int) (f : ConsoleEdit → ConsoleEdit) : AppState :=
  { st with consoles := updateFirst (fun c => match_thread c thid) f st.consoles }

/-- Outcome of a foreign predicate call: Prolog success (TRUE), ordinary
failure (FALSE), a raised `PlException` with its message, or a process
abort from a failed assertion. -/
inductive PRes where
  | ptrue
  | pfalse
  | pexcept : String → PRes
  | pabort
  deriving Repr, DecidableEq

/-- The term arguments and environment-supplied values of one predicate
call: the calling thread, the term arguments the predicates read, and
the outcomes of the modal dialogs run on the GUI thread (what the user
picked).  `debugBuild` says whether `Q_ASSERT` is compiled in. -/
structure CallInputs where
  thid : Int
  debugBuild : Bool
  newTitle : String
  optsList : List PTerm
  menuLabel : String
  menuBefore : String
  pdLabel : String
  itemLabel : String
  itemBefore : String
  itemGoal : String
  histLine : String
  dialogChoice : String
  fontAccepted : Bool
  chosenFont : String

/-- `window_title` (lines 190-201): get/set the owning main window's
title; FALSE when there is no console for the thread or the parent is
not a `QMainWindow`. -/
def window_title_pred (st : AppState) (inp : CallInputs) : PRes × AppState :=
  match console_by_thread st.consoles inp.thid with
  | some c =>
    match c.parent with
    | some w =>
      if w.isMain then
        (.ptrue, updateConsole st inp.thid
          (fun c0 => { c0 with parent := some { w with title := inp.newTitle } }))
      else (.pfalse, st)
    | none => (.pfalse, st)
  | none => (.pfalse, st)

/-- `win_window_pos` (lines 211-259): resolve the console and its parent
widget, then run the option loop; the partially updated window is kept
whatever the outcome (mutations are immediate, never rolled back). -/
def win_window_pos_pred (st : AppState) (inp : CallInputs) : PRes × AppState :=
  match console_by_thread st.consoles inp.thid with
  | some c =>
    match c.parent with
    | some w =>
      match applyOpts c.fontCellW c.fontCellH w inp.optsList with
      | .wtrue w2 =>
        (.ptrue, updateConsole st inp.thid (fun c0 => { c0 with parent := some w2 }))
      | .wfalse w2 =>
        (.pfalse, updateConsole st inp.thid (fun c0 => { c0 with parent := some w2 }))
      | .wexc w2 =>
        (.pexcept "type_error", updateConsole st inp.thid (fun c0 => { c0 with parent := some w2 }))
    | none => (.pfalse, st)
  | none => (.pfalse, st)

/-- `win_has_menu` (lines 264-267): TRUE only when the console is framed
directly by a `QMainWindow`. -/
def win_has_menu_pred (st : AppState) (inp : CallInputs) : PRes × AppState :=
  match console_by_thread st.consoles inp.thid with
  | some c =>
    match c.parent with
    | some w => (if w.isMain then .ptrue else .pfalse, st)
    | none => (.pfalse, st)
  | none => (.pfalse, st)

/-- `win_insert_menu` (lines 287-311): TRUE whenever the calling thread
owns a console (the closure is posted to the GUI thread regardless of
what it then manages to do); the closure edits the menu bar only when
the parent is a `QMainWindow`. -/
def win_insert_menu_pred (st : AppState) (inp : CallInputs) : PRes × AppState :=
  match console_by_thread st.consoles inp.thid with
  | some _ =>
    (.ptrue, updateConsole st inp.thid (fun c0 =>
      match c0.parent with
      | some w =>
        if w.isMain then
          { c0 with parent := some { w with menubar := insertMenuBar w.menubar inp.menuLabel inp.menuBefore } }
        else c0
      | none => c0))
  | none => (.pfalse, st)

/-- `win_insert_menu_item` (lines 316-361): TRUE whenever the calling
thread owns a console; the closure edits the pulldown only when the
parent is a `QMainWindow`.  The context module is overwritten with the
literal "win_menu" before the closure captures it (line 324). -/
def win_insert_menu_item_pred (st : AppState) (inp : CallInputs) : PRes × AppState :=
  match console_by_thread st.consoles inp.thid with
  | some _ =>
    (.ptrue, updateConsole st inp.thid (fun c0 =>
      match c0.parent with
      | some w =>
        if w.isMain then
          { c0 with parent := (some
              { w with menubar := imiBar inp.pdLabel inp.itemLabel inp.itemBefore inp.itemGoal "win_menu" w.menubar }) }
        else c0
      | none => c0))
  | none => (.pfalse, st)

/-- `tty_clear` (lines 366-373).  Modelled from the spec: the
`ConsoleEdit::tty_clear` method lives in the missing `ConsoleEdit.h`;
spec section 6 says clear-console clears the console's visible buffer. -/
def tty_clear_pred (st : AppState) (inp : CallInputs) : PRes × AppState :=
  match console_by_thread st.consoles inp.thid with
  | some _ =>
    (.ptrue, updateConsole st inp.thid (fun c0 => { c0 with textBuf := "" }))
  | none => (.pfalse, st)

/-- `win_open_console` (lines 379-428): resolves a console with
`console_peek_first` — not by thread — and throws a `PlException` when
none exists; the stream triple creation and `new_console` hand-off are
delegated to the external stream layer and succeed. -/
def win_open_console_pred (st : AppState) (_inp : CallInputs) : PRes × AppState :=
  match console_peek_first st.consoles with
  | some _ => (.ptrue, st)
  | none => (.pexcept "no ConsoleEdit available", st)

/-- `rl_add_history` (lines 432-441): append a non-empty line to the
console's history (`ConsoleEdit::add_history_line`; modelled from the
spec, section 6 history-append); TRUE whenever the console exists, even
for an empty line. -/
def rl_add_history_pred (st : AppState) (inp : CallInputs) : PRes × AppState :=
  match console_by_thread st.consoles inp.thid with
  | some _ =>
    (.ptrue,
      if inp.histLine ≠ "" then
        updateConsole st inp.thid (fun c0 => { c0 with history := c0.history ++ [inp.histLine] })
      else st)
  | none => (.pfalse, st)

/-- `$rl_history` (lines 452-462): report the console's history lines;
TRUE exactly when the console exists. -/
def rl_history_pred (st : AppState) (inp : CallInputs) : PRes × AppState :=
  match console_by_thread st.consoles inp.thid with
  | some _ => (.ptrue, st)
  | none => (.pfalse, st)

/-- The history lines `$rl_history` binds to its argument. -/
def rl_history_out (st : AppState) (inp : CallInputs) : Option (List String) :=
  (console_by_thread st.consoles inp.thid).map (fun c => c.history)

/-- The Rows/Cols computation of `tty_size` (lines 469-471): integer
division of the widget's pixel size by the font cell size
(`fontMetrics().size(0, "Q")`). -/
def ttySizeRC (c : ConsoleEdit) : Nat × Nat :=
  (c.cheight / c.fontCellH, c.cwidth / c.fontCellW)

/-- `tty_size` (lines 466-477): TRUE with the computed Rows/Cols when the
console exists, FALSE otherwise. -/
def tty_size_pred (st : AppState) (inp : CallInputs) : PRes × AppState :=
  match console_by_thread st.consoles inp.thid with
  | some _ => (.ptrue, st)
  | none => (.pfalse, st)

/-- The pair `(Rows, Cols)` that `tty_size` binds to its arguments. -/
def tty_size_out (st : AppState) (inp : CallInputs) : Option (Nat × Nat) :=
  (console_by_thread st.consoles inp.thid).map ttySizeRC

/-- `QMetaObject::indexOfProperty` followed by `property(pid)`: the first
reflected property with the given name. -/
def indexOfProperty (props : List PropSlot) (nm : String) : Option PropSlot :=
  props.find? (fun sl => sl.pname = nm)

/-- Store a new value into the named property slot. -/
def setPropValue (nm : String) (v : QVal) : List PropSlot → List PropSlot :=
  updateFirst (fun sl => sl.pname = nm) (fun sl => { sl with value := v })

/-- Outcome of processing one `console_settings` option. -/
inductive SStep where
  | scont : List PropSlot → SStep
  | sexc : String → SStep
  | sabort : SStep

/-- One iteration of the `console_settings` loop (lines 505-516):
`opt.arity()` throws on a non-atom, non-compound term; an arity other
than 1 throws "properties have arity 1"; an unknown property name throws
"property not found"; otherwise the property bridge `unify` runs on
`opt[1]` and its error or assertion outcome propagates. -/
def settingsStep (assertOn : Bool) (props : List PropSlot) (opt : PTerm) : SStep :=
  match termArity opt with
  | none => .sexc "type_error"
  | some ar =>
    if ar = 1 then
      match opt with
      | .pcomp nm [arg] =>
        match indexOfProperty props nm with
        | some sl =>
          match unify assertOn sl.meta sl.value arg with
          | .uok v2 _ => .scont (setPropValue nm v2 props)
          | .uerr m => .sexc m
          | .uabort => .sabort
        | none => .sexc "property not found"
      | _ => .sexc "type_error"
    else .sexc "properties have arity 1"

/-- The `for (PlTail opts(A1); opts.next(opt); )` loop of
`console_settings`: options are processed left to right; writes already
performed stay when a later option throws. -/
def settingsLoop (assertOn : Bool) (props : List PropSlot) : List PTerm → List PropSlot × PRes
  | [] => (props, .ptrue)
  | opt :: rest =>
    match settingsStep assertOn props opt with
    | .scont props2 => settingsLoop assertOn props2 rest
    | .sexc m => (props, .pexcept m)
    | .sabort => (props, .pabort)

/-- `console_settings` (lines 500-520): resolve the console by thread,
then run the option loop over its reflected properties. -/
def console_settings_pred (st : AppState) (inp : CallInputs) : PRes × AppState :=
  match console_by_thread st.consoles inp.thid with
  | some c =>
    let r := settingsLoop inp.debugBuild c.props inp.optsList
    (r.2, updateConsole st inp.thid (fun c0 => { c0 with props := r.1 }))
  | none => (.pfalse, st)

/-- `getOpenFileName` (lines 526-546): run the modal dialog on the GUI
thread (fire-and-wait), then succeed exactly when the chosen path is
non-empty. -/
def getOpenFileName_pred (st : AppState) (inp : CallInputs) : PRes × AppState :=
  match console_by_thread st.consoles inp.thid with
  | some _ => (if inp.dialogChoice ≠ "" then .ptrue else .pfalse, st)
  | none => (.pfalse, st)

/-- `getSaveFileName` (lines 552-572): same structure as
`getOpenFileName` with the save-file dialog. -/
def getSaveFileName_pred (st : AppState) (inp : CallInputs) : PRes × AppState :=
  match console_by_thread st.consoles inp.thid with
  | some _ => (if inp.dialogChoice ≠ "" then .ptrue else .pfalse, st)
  | none => (.pfalse, st)

/-- `select_font` (lines 577-592): run the font dialog (fire-and-wait);
on acceptance set the console font and persist the preference; the
return value is the acceptance flag, FALSE also when no console
exists (`ok` stays false). -/
def select_font_pred (st : AppState) (inp : CallInputs) : PRes × AppState :=
  match console_by_thread st.consoles inp.thid with
  | some _ =>
    if inp.fontAccepted then
      (.ptrue,
        { updateConsole st inp.thid (fun c0 => { c0 with cfont := inp.chosenFont }) with
            prefFont := inp.chosenFont })
    else (.pfalse, st)
  | none => (.pfalse, st)

/-- `quit_console` (lines 597-604): post `qApp->quit()` and succeed. -/
def quit_console_pred (st : AppState) (inp : CallInputs) : PRes × AppState :=
  match console_by_thread st.consoles inp.thid with
  | some _ => (.ptrue, { st with quitRequested := true })
  | none => (.pfalse, st)

/-- `copy` (lines 608-618): put the console's current selection on the
clipboard. -/
def copy_pred (st : AppState) (inp : CallInputs) : PRes × AppState :=
  match console_by_thread st.consoles inp.thid with
  | some c => (.ptrue, { st with clipboard := c.selection })
  | none => (.pfalse, st)

/-- `paste` (lines 622-632): insert the clipboard text at the console's
cursor. -/
def paste_pred (st : AppState) (inp : CallInputs) : PRes × AppState :=
  match console_by_thread st.consoles inp.thid with
  | some _ =>
    (.ptrue, updateConsole st inp.thid (fun c0 => { c0 with textBuf := c0.textBuf ++ st.clipboard }))
  | none => (.pfalse, st)

/-- The extension points registered by `pqConsole.cpp` that need a
console. -/
inductive ExtPoint where
  | window_title | win_window_pos | win_has_menu | win_insert_menu | win_insert_menu_item
  | tty_clear | rl_add_history | rl_history | tty_size | console_settings
  | getOpenFileName | getSaveFileName | select_font | quit_console | copy | paste
  | win_open_console
  deriving Repr, DecidableEq

/-- Uniform dispatch over the extension points. -/
def epCall (ep : ExtPoint) (st : AppState) (inp : CallInputs) : PRes × AppState :=
  match ep with
  | .window_title => window_title_pred st inp
  | .win_window_pos => win_window_pos_pred st inp
  | .win_has_menu => win_has_menu_pred st inp
  | .win_insert_menu => win_insert_menu_pred st inp
  | .win_insert_menu_item => win_insert_menu_item_pred st inp
  | .tty_clear => tty_clear_pred st inp
  | .rl_add_history => rl_add_history_pred st inp
  | .rl_history => rl_history_pred st inp
  | .tty_size => tty_size_pred st inp
  | .console_settings => console_settings_pred st inp
  | .getOpenFileName => getOpenFileName_pred st inp
  | .getSaveFileName => getSaveFileName_pred st inp
  | .select_font => select_font_pred st inp
  | .quit_console => quit_console_pred st inp
  | .copy => copy_pred st inp
  | .paste => paste_pred st inp
  | .win_open_console => win_open_console_pred st inp

/-- The console-requiring extension points named by the spec. -/
def consoleCalls : List ExtPoint :=
  [.window_title, .win_window_pos, .win_has_menu, .win_insert_menu, .win_insert_menu_item,
   .tty_clear, .rl_add_history, .rl_history, .tty_size, .console_settings,
   .getOpenFileName, .getSaveFileName, .select_font, .quit_console, .copy, .paste,
   .win_open_console]

/-- Modelled from the spec: the state of one `ConsoleEdit::exec_sync`
rendezvous (declared in the missing `ConsoleEdit.h`; spec section 4.4).
`guiPC` is the GUI thread's progress through the posted closure: 0
before the unit of work, 1 after the work has completed but before
`s.go()`, 2 after `s.go()` — the source closures (`getOpenFileName`,
`getSaveFileName`, `select_font`) call `s.go()` as their last statement,
after the work.  `sem` is the single-use synchronization point, set
exactly once by `go`.  `waitReturned` records that the worker's
`s.stop()` has returned. -/
structure SyncState where
  guiPC : Nat
  sem : Bool
  waitReturned : Bool
  deriving Repr, DecidableEq

/-- The observable events of one fire-and-wait dispatch. -/
inductive SEv where
  | runWork
  | goSig
  | stopReturn
  deriving Repr, DecidableEq

/-- Modelled from the spec: interleaving semantics of a fire-and-wait
dispatch (spec section 4.4).  The GUI thread runs the work and only then
may signal (`go` follows the work in program order); the worker's wait
can return only once the synchronization point has been signalled.
`none` means the event is not enabled in the given state. -/
def syncStep (s : SyncState) : SEv → Option SyncState
  | .runWork => if s.guiPC = 0 then some { s with guiPC := 1 } else none
  | .goSig => if s.guiPC = 1 then some { s with guiPC := 2, sem := true } else none
  | .stopReturn =>
      if s.sem ∧ ¬s.waitReturned then some { s with waitReturned := true } else none

/-- Execute a schedule of events; `none` as soon as a scheduled event is
not enabled. -/
def syncRun (s : SyncState) : List SEv → Option SyncState
  | [] => some s
  | e :: es =>
    match syncStep s e with
    | some s2 => syncRun s2 es
    | none => none

/-- The state at the moment the worker thread blocks on `s.stop()`:
work not yet run, synchronization point untouched, wait pending. -/
def syncInit : SyncState := ⟨0, false, false⟩

/-- A console framed by a main window with an empty menu bar, owned by
thread 0; used as the concrete scenario of several witnesses. -/
def mw0 : PWindow :=
  { isMain := true, title := "SWI-Prolog", px := 0, py := 0, pw := 640, ph := 480,
    visible := true, active := false, menubar := [] }

/-- A concrete console owned by thread 0. -/
def ce0 : ConsoleEdit :=
  { thid := 0, fontCellW := 9, fontCellH := 16, cwidth := 640, cheight := 480,
    history := [], textBuf := "", selection := "", cfont := "Courier",
    props := [], parent := some mw0 }

/-- A state with a single console (thread 0) framed by a main window. -/
def stMW : AppState :=
  { consoles := [ce0], clipboard := "", prefFont := "", quitRequested := false }

/-- A state with no console at all. -/
def stEmpty : AppState :=
  { consoles := [], clipboard := "", prefFont := "", quitRequested := false }

/-- Neutral call inputs for thread 0. -/
def inp0 : CallInputs :=
  { thid := 0, debugBuild := false, newTitle := "", optsList := [],
    menuLabel := "", menuBefore := "", pdLabel := "", itemLabel := "",
    itemBefore := "", itemGoal := "", histLine := "", dialogChoice := "",
    fontAccepted := false, chosenFont := "" }

/-- Number of top-level menus of a menu bar carrying a given label. -/
def countMenus (mbar : List Menu) (l : String) : Nat :=
  (mbar.filter (fun m => m.label = l)).length

/-- A plain (non-enumerated) integer property. -/
def numProp : MetaProp := ⟨QKind.qint, false, false, []⟩

/-- A boolean property. -/
def boolProp : MetaProp := ⟨QKind.qbool, false, false, []⟩

/-- A string property. -/
def strProp : MetaProp := ⟨QKind.qstring, false, false, []⟩

/-- A plain enumerated property with one key. -/
def enumProp : MetaProp := ⟨QKind.qint, true, false, [("NoWrap", 0), ("WidgetWidth", 1)]⟩

/-- A flag-type (bitmask) enumerated property. -/
def flagProp : MetaProp := ⟨QKind.qint, true, true, [("A", 1), ("B", 2)]⟩

/-- Inputs asking `win_insert_menu` for a menu "File" before the
non-existent anchor "Xanadu". -/
def inpMenu : CallInputs := { inp0 with menuLabel := "File", menuBefore := "Xanadu" }

/-- A `win_window_pos` option list whose single option is known by name
and arity but carries an integer where a named term is read. -/
def opts0 : List PTerm := [PTerm.pcomp "show" [PTerm.pint 5]]

/-- Inputs passing `opts0` to `win_window_pos`. -/
def inpShow : CallInputs := { inp0 with optsList := opts0 }

/-- The menu bar of the first console's parent window (the menu bar the
`win_insert_menu` scenarios below act on). -/
def firstMenubar (st : AppState) : List Menu :=
  match console_peek_first st.consoles with
  | some c =>
    match c.parent with
    | some w => w.menubar
    | none => []
  | none => []

/-- A `win_window_pos` option that is known (name and arity) and whose
arguments have the shapes the option's branch reads without throwing:
integer cell counts for `size`, integer pixel coordinates for
`position`, anything for the inert `zorder`, a named term for
`show`, and the bare atom `activate`. -/
inductive GoodOpt : PTerm → Prop where
  | gsize (a b : Int) : GoodOpt (.pcomp "size" [.pint a, .pint b])
  | gposition (a b : Int) : GoodOpt (.pcomp "position" [.pint a, .pint b])
  | gzorder (z : PTerm) : GoodOpt (.pcomp "zorder" [z])
  | gshow (a : PTerm) (s : String) (h : termName a = some s) : GoodOpt (.pcomp "show" [a])
  | gactivate : GoodOpt (.patom "activate")

/-- Inputs passing `size(80,25)` to `win_window_pos`. -/
def inpSize : CallInputs :=
  { inp0 with optsList := [PTerm.pcomp "size" [PTerm.pint 80, PTerm.pint 25]] }

/-- The write-dispatch table of `unify`, read off the source's switch
(lines 138-176): a bound term is accepted for assignment exactly when
an integer meets an Int or UInt property, an atom meets a String
property or an enumerated Int property whose name table knows the key
(`keyToValue` not returning the -1 sentinel), or a float meets a Double
property; variables are read requests, and no other combination has a
write path. -/
def writeAccepts (p : MetaProp) (v : PTerm) : Bool :=
  match v with
  | .pvar => false
  | .pint _ => p.kind = QKind.qint ∨ p.kind = QKind.quint
  | .patom s =>
      p.kind = QKind.qstring ∨
        (p.kind = QKind.qint ∧ p.isEnum = true ∧ keyToValue p.enumPairs s ≠ -1)
  | .pfloat _ => p.kind = QKind.qdouble
  | .pcomp _ _ => false

/-! Helper lemmas (shared; not tied to a single claim). -/

/-- `qint32` is the identity on values already in signed 32-bit range. -/
theorem qint32_of_range (n : Int) (h1 : -(2 ^ 31) ≤ n) (h2 : n < 2 ^ 31) :
    qint32 n = n := by
  have e1 : (2 : Int) ^ 31 = 2147483648 := by norm_num
  have e2 : (2 : Int) ^ 32 = 4294967296 := by norm_num
  unfold qint32
  rw [e1, e2] at *
  have hmod : (n + 2147483648) % 4294967296 = n + 2147483648 :=
    Int.emod_eq_of_lt (by omega) (by omega)
  omega

/-- `keyToValue` returns the -1 sentinel when no pair carries the key. -/
theorem keyToValue_of_unknown (ps : List (String × Int)) (s : String)
    (h : ∀ q ∈ ps, q.1 ≠ s) : keyToValue ps s = -1 := by
  have hnone : ps.find? (fun q => q.1 = s) = none := by
    rw [List.find?_eq_none]
    intro q hq
    simpa using h q hq
  simp [keyToValue, hnone]

/-- Invariant of the `exec_sync` rendezvous: the wait can only have
returned once the point is signalled, and the point is only signalled
once the GUI thread has run the whole closure (work, then `go`). -/
def syncInv (s : SyncState) : Prop :=
  (s.waitReturned = true → s.sem = true) ∧ (s.sem = true → s.guiPC = 2)

theorem syncStep_inv {s s2 : SyncState} {e : SEv}
    (hstep : syncStep s e = some s2) (hinv : syncInv s) : syncInv s2 := by
  obtain ⟨h1, h2⟩ := hinv
  cases e <;> simp only [syncStep] at hstep
  · split at hstep
    · cases hstep
      constructor
      · intro hw; exact h1 hw
      · intro hs
        have := h2 hs
        simp_all
    · cases hstep
  · split at hstep
    · cases hstep
      constructor <;> intro <;> rfl
    · cases hstep
  · split at hstep
    · cases hstep
      rename_i hcond
      constructor
      · intro; exact hcond.1
      · intro hs; exact h2 hs
    · cases hstep

theorem syncRun_inv :
    ∀ (tr : List SEv) (s0 s : SyncState),
      syncInv s0 → syncRun s0 tr = some s → syncInv s := by
  intro tr
  induction tr with
  | nil =>
    intro s0 s h0 hr
    simp only [syncRun] at hr
    cases hr
    exact h0
  | cons e es ih =>
    intro s0 s h0 hr
    simp only [syncRun] at hr
    cases hstep : syncStep s0 e with
    | none => rw [hstep] at hr; cases hr
    | some s1 =>
      rw [hstep] at hr
      exact ih s1 s (syncStep_inv hstep h0) hr

/-- Claim C9: a fire-and-wait dispatch (the `exec_sync` stop/go pairing
used by `getOpenFileName`, `getSaveFileName` and `select_font`) never
lets the worker's wait return before the submitted closure has completed
on the GUI thread: in every execution starting from `syncInit`, if
`stop()` has returned then the signal was emitted (`sem`) and the GUI
thread had already finished the unit of work and the signal
(`guiPC = 2`); the signal happens after the work because `go()` is the
closure's last statement. -/
theorem exec_sync_wait_after_completion (tr : List SEv) (s : SyncState)
    (hrun : syncRun syncInit tr = some s) (hret : s.waitReturned = true) :
    s.sem = true ∧ s.guiPC = 2 := by
  have hinv : syncInv s := by
    apply syncRun_inv tr syncInit s _ hrun
    constructor
    · intro h; cases h
    · intro h; cases h
  exact ⟨hinv.1 hret, hinv.2 (hinv.1 hret)⟩

/-- Witness for C9: the only complete schedule runs the work, signals,
and lets the wait return, ending with `guiPC = 2`. -/
theorem exec_sync_wait_after_completion_witness :
    syncRun syncInit [SEv.runWork, SEv.goSig, SEv.stopReturn] =
      some { guiPC := 2, sem := true, waitReturned := true } ∧
    ({ guiPC := 2, sem := true, waitReturned := true } : SyncState).sem = true ∧
    ({ guiPC := 2, sem := true, waitReturned := true } : SyncState).guiPC = 2 := by
  refine ⟨by decide, ?_⟩
  exact exec_sync_wait_after_completion [SEv.runWork, SEv.goSig, SEv.stopReturn]
    { guiPC := 2, sem := true, waitReturned := true } (by decide) (by decide)

/-- Claim C8: for a console with positive font cell sizes, `tty_size`
returns exactly the integer quotients of the widget's pixel dimensions
by the font cell dimensions, so Rows*cellH ≤ height < (Rows+1)*cellH
and Cols*cellW ≤ width < (Cols+1)*cellW. -/
theorem tty_size_cell_bounds (st : AppState) (inp : CallInputs) (c : ConsoleEdit)
    (hc : console_by_thread st.consoles inp.thid = some c)
    (hH : 0 < c.fontCellH) (hW : 0 < c.fontCellW) :
    tty_size_out st inp = some (c.cheight / c.fontCellH, c.cwidth / c.fontCellW) ∧
    (c.cheight / c.fontCellH) * c.fontCellH ≤ c.cheight ∧
    c.cheight < (c.cheight / c.fontCellH + 1) * c.fontCellH ∧
    (c.cwidth / c.fontCellW) * c.fontCellW ≤ c.cwidth ∧
    c.cwidth < (c.cwidth / c.fontCellW + 1) * c.fontCellW := by
  refine ⟨by simp [tty_size_out, hc, ttySizeRC], Nat.div_mul_le_self _ _, ?_, Nat.div_mul_le_self _ _, ?_⟩
  · calc c.cheight = c.fontCellH * (c.cheight / c.fontCellH) + c.cheight % c.fontCellH :=
          (Nat.div_add_mod _ _).symm
      _ < c.fontCellH * (c.cheight / c.fontCellH) + c.fontCellH :=
          Nat.add_lt_add_left (Nat.mod_lt _ hH) _
      _ = (c.cheight / c.fontCellH + 1) * c.fontCellH := by ring
  · calc c.cwidth = c.fontCellW * (c.cwidth / c.fontCellW) + c.cwidth % c.fontCellW :=
          (Nat.div_add_mod _ _).symm
      _ < c.fontCellW * (c.cwidth / c.fontCellW) + c.fontCellW :=
          Nat.add_lt_add_left (Nat.mod_lt _ hW) _
      _ = (c.cwidth / c.fontCellW + 1) * c.fontCellW := by ring

/-- Witness for C8 at the concrete console `ce0` (480x640 pixels, 16x9
cells): 30 rows, 71 columns. -/
theorem tty_size_cell_bounds_witness :
    tty_size_out stMW inp0 = some (ce0.cheight / ce0.fontCellH, ce0.cwidth / ce0.fontCellW) ∧
    (ce0.cheight / ce0.fontCellH) * ce0.fontCellH ≤ ce0.cheight ∧
    ce0.cheight < (ce0.cheight / ce0.fontCellH + 1) * ce0.fontCellH ∧
    (ce0.cwidth / ce0.fontCellW) * ce0.fontCellW ≤ ce0.cwidth ∧
    ce0.cwidth < (ce0.cwidth / ce0.fontCellW + 1) * ce0.fontCellW :=
  tty_size_cell_bounds stMW inp0 ce0 (by decide) (by decide) (by decide)

/-- Claim C2: any kind mismatch in the property bridge `unify` is
terminal and never assigns, universally over every term kind and every
property kind.  First conjunct: every bound term the write-dispatch
table rejects (`writeAccepts` false — this covers integer, atom, float
and compound writes to boolean, double and every other mismatched
property kind, and unknown enumeration names) ends in the thrown
"property type mismatch" error, except that a flag-type enumeration in
an assertion-enabled build aborts at the `Q_ASSERT` before interpreting
anything (still assigning nothing).  Second conjunct: the converse
universal guarantee that no mismatched value is ever silently coerced
and assigned — `uok`, the only outcome carrying an updated property
value, occurs for a bound term only when the kinds match.  Third
conjunct: read requests on the property kinds without a read path
(double and other) also throw. -/
theorem property_mismatch_raises (a : Bool) (p : MetaProp) (cur : QVal) (v : PTerm) :
    (v ≠ PTerm.pvar → writeAccepts p v = false →
      unify a p cur v = URes.uerr "property type mismatch" ∨
      (unify a p cur v = URes.uabort ∧ a = true ∧ p.isFlag = true)) ∧
    (∀ (st : QVal) (t : PTerm), unify a p cur v = URes.uok st t → v ≠ PTerm.pvar →
      writeAccepts p v = true) ∧
    ((p.kind = QKind.qdouble ∨ p.kind = QKind.qother) →
      unify a p cur PTerm.pvar = URes.uerr "property type mismatch") := by
  have hmain : v ≠ PTerm.pvar → writeAccepts p v = false →
      unify a p cur v = URes.uerr "property type mismatch" ∨
      (unify a p cur v = URes.uabort ∧ a = true ∧ p.isFlag = true) := by
    intro hv hacc
    cases v with
    | pvar => exact absurd rfl hv
    | pint n =>
      cases hk : p.kind with
      | qint => simp [writeAccepts, hk] at hacc
      | quint => simp [writeAccepts, hk] at hacc
      | qbool => exact Or.inl (by simp [unify, hk])
      | qstring => exact Or.inl (by simp [unify, hk])
      | qdouble => exact Or.inl (by simp [unify, hk])
      | qother => exact Or.inl (by simp [unify, hk])
    | patom s =>
      cases hk : p.kind with
      | qstring => simp [writeAccepts, hk] at hacc
      | qbool => exact Or.inl (by simp [unify, hk])
      | quint => exact Or.inl (by simp [unify, hk])
      | qdouble => exact Or.inl (by simp [unify, hk])
      | qother => exact Or.inl (by simp [unify, hk])
      | qint =>
        by_cases he : p.isEnum = true
        · by_cases hf : (a && p.isFlag) = true
          · obtain ⟨ha, hfl⟩ : a = true ∧ p.isFlag = true := by
              simpa [Bool.and_eq_true] using hf
            exact Or.inr ⟨by simp [unify, hk, he, hf], ha, hfl⟩
          · have hf2 : (a && p.isFlag) = false := by
              cases h2 : (a && p.isFlag) with
              | false => rfl
              | true => exact absurd h2 hf
            have hkv : keyToValue p.enumPairs s = -1 := by
              simp [writeAccepts, hk, he] at hacc
              exact hacc
            exact Or.inl (by simp [unify, hk, he, hf2, hkv])
        · have he2 : p.isEnum = false := by
            cases h2 : p.isEnum with
            | false => rfl
            | true => exact absurd h2 he
          exact Or.inl (by simp [unify, hk, he2])
    | pfloat b =>
      cases hk : p.kind with
      | qdouble => simp [writeAccepts, hk] at hacc
      | qbool => exact Or.inl (by simp [unify, hk])
      | qint => exact Or.inl (by simp [unify, hk])
      | quint => exact Or.inl (by simp [unify, hk])
      | qstring => exact Or.inl (by simp [unify, hk])
      | qother => exact Or.inl (by simp [unify, hk])
    | pcomp f as => exact Or.inl (by simp [unify])
  refine ⟨hmain, ?_, ?_⟩
  · intro st t huok hv
    cases hacc : writeAccepts p v with
    | true => rfl
    | false =>
      rcases hmain hv hacc with h | ⟨h, _, _⟩ <;> rw [h] at huok <;> simp at huok
  · rintro (hk | hk) <;> simp [unify, hk]

/-- Witness for C2: the atom "abc" is rejected by the write-dispatch
table for a plain integer property, and writing it throws the terminal
"property type mismatch". -/
theorem property_mismatch_raises_witness :
    writeAccepts numProp (PTerm.patom "abc") = false ∧
    (unify false numProp (QVal.vi 0) (PTerm.patom "abc") =
        URes.uerr "property type mismatch" ∨
      (unify false numProp (QVal.vi 0) (PTerm.patom "abc") = URes.uabort ∧
        false = true ∧ numProp.isFlag = true)) :=
  ⟨rfl, (property_mismatch_raises false numProp (QVal.vi 0) (PTerm.patom "abc")).1
      (fun h => PTerm.noConfusion h) rfl⟩

/-- Counterexample for C6: with assertions compiled out (`Q_ASSERT` is a
no-op in release builds) the bridge does interpret a flag-type
enumeration instead of failing fast: reading the flag property whose
stored value matches the key "A" returns that key, and writing the key
"A" resolves and assigns its value — neither raises an error. -/
theorem flag_enum_counterexample :
    unify false flagProp (QVal.vi 1) PTerm.pvar =
      URes.uok (QVal.vi 1) (PTerm.patom "A") ∧
    unify false flagProp (QVal.vi 1) (PTerm.patom "A") =
      URes.uok (QVal.vi 1) (PTerm.patom "A") :=
  ⟨rfl, rfl⟩

/-- Claim C6 as amended: flag-type enumerations are guarded only by a
debug-time assertion: with assertions enabled both reading and writing a
flag enumeration property abort at the `Q_ASSERT` before any
interpretation; with assertions disabled the bridge treats the property
exactly like a plain (non-flag) enumeration. -/
theorem flag_enum_amended (p : MetaProp) (cur : QVal) (s : String) (v : PTerm)
    (hk : p.kind = QKind.qint) (he : p.isEnum = true) (hf : p.isFlag = true) :
    unify true p cur PTerm.pvar = URes.uabort ∧
    unify true p cur (PTerm.patom s) = URes.uabort ∧
    unify false p cur v = unify false { p with isFlag := false } cur v := by
  refine ⟨by simp [unify, hk, he, hf], by simp [unify, hk, he, hf], ?_⟩
  rcases p with ⟨k, e, f, ps⟩
  cases v <;> simp [unify]

/-- Witness for C6's amended claim at the concrete flag property. -/
theorem flag_enum_amended_witness :
    unify true flagProp (QVal.vi 1) PTerm.pvar = URes.uabort ∧
    unify true flagProp (QVal.vi 1) (PTerm.patom "A") = URes.uabort ∧
    unify false flagProp (QVal.vi 1) PTerm.pvar =
      unify false { flagProp with isFlag := false } (QVal.vi 1) PTerm.pvar :=
  flag_enum_amended flagProp (QVal.vi 1) "A" PTerm.pvar rfl rfl rfl

/-- Counterexample for C3: boolean values cannot be written through the
bridge at all — `unify` has write paths only for integer, atom-as-string,
atom-as-enum-name and float terms, none of which covers a
`QVariant::Bool` property — so writing the boolean true (the atom the
read path itself produces) raises "property type mismatch", and the
write-then-read round trip claimed for booleans is impossible; reading
the boolean property works fine. -/
theorem bool_roundtrip_counterexample :
    unify false boolProp (QVal.vb false) (PTerm.patom "true") =
      URes.uerr "property type mismatch" ∧
    unify false boolProp (QVal.vb false) (PTerm.pint 1) =
      URes.uerr "property type mismatch" ∧
    unify false boolProp (QVal.vb false) PTerm.pvar =
      URes.uok (QVal.vb false) (PTerm.patom "false") :=
  ⟨rfl, rfl, rfl⟩

/-- Claim C3 as amended: write-then-read round trips hold through the
property bridge for integer properties (for values within signed 32-bit
range, which the `qint32` cast preserves), string properties, and
enumerated properties written by name (when the name/value table maps
the key and its value to each other and the value is not the -1
sentinel); boolean properties are readable but not writable — every
attempted write raises "property type mismatch". -/
theorem roundtrip_amended (a : Bool) (p : MetaProp) (cur : QVal) :
    (∀ n : Int, p.kind = QKind.qint → p.isEnum = false →
      -(2 ^ 31) ≤ n → n < 2 ^ 31 →
      unify a p cur (PTerm.pint n) = URes.uok (QVal.vi n) (PTerm.pint n) ∧
      unify a p (QVal.vi n) PTerm.pvar = URes.uok (QVal.vi n) (PTerm.pint n)) ∧
    (∀ s : String, p.kind = QKind.qstring →
      unify a p cur (PTerm.patom s) = URes.uok (QVal.vs s) (PTerm.patom s) ∧
      unify a p (QVal.vs s) PTerm.pvar = URes.uok (QVal.vs s) (PTerm.patom s)) ∧
    (∀ (key : String) (val : Int), p.kind = QKind.qint → p.isEnum = true →
      p.isFlag = false →
      p.enumPairs.find? (fun q => q.1 = key) = some (key, val) →
      p.enumPairs.find? (fun q => q.2 = val) = some (key, val) →
      val ≠ -1 →
      unify a p cur (PTerm.patom key) = URes.uok (QVal.vi val) (PTerm.patom key) ∧
      unify a p (QVal.vi val) PTerm.pvar = URes.uok (QVal.vi val) (PTerm.patom key)) ∧
    (p.kind = QKind.qbool →
      (∀ n : Int, unify a p cur (PTerm.pint n) = URes.uerr "property type mismatch") ∧
      (∀ s : String, unify a p cur (PTerm.patom s) = URes.uerr "property type mismatch")) := by
  refine ⟨?_, ?_, ?_, ?_⟩
  · intro n hk he h1 h2
    constructor
    · simp [unify, hk, qint32_of_range n h1 h2]
    · simp [unify, hk, he, QVal.toInt]
  · intro s hk
    constructor
    · simp [unify, hk]
    · simp [unify, hk, QVal.toQString]
  · intro key val hk he hf hkv hvk hne
    constructor
    · have : keyToValue p.enumPairs key = val := by simp [keyToValue, hkv]
      simp [unify, hk, he, hf, this, hne]
    · have : valueToKey p.enumPairs val = some key := by simp [valueToKey, hvk]
      simp [unify, hk, he, hf, QVal.toInt, this]
  · intro hk
    exact ⟨fun n => by simp [unify, hk], fun s => by simp [unify, hk]⟩

/-- Witness for C3's amended claim: a string round trip, an in-range
integer round trip, and an enum-by-name round trip at concrete
properties. -/
theorem roundtrip_amended_witness :
    (unify false strProp (QVal.vs "") (PTerm.patom "hi") =
       URes.uok (QVal.vs "hi") (PTerm.patom "hi") ∧
     unify false strProp (QVal.vs "hi") PTerm.pvar =
       URes.uok (QVal.vs "hi") (PTerm.patom "hi")) ∧
    (unify false numProp (QVal.vi 0) (PTerm.pint 100) =
       URes.uok (QVal.vi 100) (PTerm.pint 100) ∧
     unify false numProp (QVal.vi 100) PTerm.pvar =
       URes.uok (QVal.vi 100) (PTerm.pint 100)) ∧
    (unify false enumProp (QVal.vi 0) (PTerm.patom "WidgetWidth") =
       URes.uok (QVal.vi 1) (PTerm.patom "WidgetWidth") ∧
     unify false enumProp (QVal.vi 1) PTerm.pvar =
       URes.uok (QVal.vi 1) (PTerm.patom "WidgetWidth")) :=
  ⟨(roundtrip_amended false strProp (QVal.vs "")).2.1 "hi" rfl,
   (roundtrip_amended false numProp (QVal.vi 0)).1 100 rfl rfl (by norm_num) (by norm_num),
   (roundtrip_amended false enumProp (QVal.vi 0)).2.2.1 "WidgetWidth" 1 rfl rfl rfl
     (by decide) (by decide) (by decide)⟩

/-- Counterexample for C1: `win_open_console` is in the list of
console-requiring calls, yet with no console for the calling thread
(none at all, in fact) it does not fail with an ordinary FALSE — it
throws the `PlException` "no ConsoleEdit available" (and it resolves its
console with `console_peek_first`, not by thread). -/
theorem no_console_counterexample :
    ExtPoint.win_open_console ∈ consoleCalls ∧
    console_by_thread stEmpty.consoles inp0.thid = none ∧
    (epCall ExtPoint.win_open_console stEmpty inp0).1 =
      PRes.pexcept "no ConsoleEdit available" :=
  ⟨by decide, rfl, rfl⟩

/-- Claim C1 as amended: every console-requiring extension point except
`win_open_console` resolves the console via the calling thread's
identity and answers plain Prolog failure (FALSE) when no console for
that thread exists; `win_open_console` instead takes the first console
irrespective of thread and, when no console exists at all, raises the
exception "no ConsoleEdit available" rather than failing. -/
theorem no_console_fails_amended :
    (∀ ep ∈ consoleCalls, ep ≠ ExtPoint.win_open_console →
      ∀ (st : AppState) (inp : CallInputs),
        console_by_thread st.consoles inp.thid = none →
        (epCall ep st inp).1 = PRes.pfalse) ∧
    (∀ (st : AppState) (inp : CallInputs), st.consoles = [] →
      (epCall ExtPoint.win_open_console st inp).1 =
        PRes.pexcept "no ConsoleEdit available") := by
  constructor
  · intro ep hmem hne st inp h
    cases ep <;>
      first
      | exact absurd rfl hne
      | simp [epCall, window_title_pred, win_window_pos_pred, win_has_menu_pred,
          win_insert_menu_pred, win_insert_menu_item_pred, tty_clear_pred,
          rl_add_history_pred, rl_history_pred, tty_size_pred, console_settings_pred,
          getOpenFileName_pred, getSaveFileName_pred, select_font_pred,
          quit_console_pred, copy_pred, paste_pred, h]
  · intro st inp h
    simp [epCall, win_open_console_pred, console_peek_first, h]

/-- Witness for C1's amended claim: with no console, `tty_clear` fails
with FALSE while `win_open_console` throws. -/
theorem no_console_fails_amended_witness :
    (epCall ExtPoint.tty_clear stEmpty inp0).1 = PRes.pfalse ∧
    (epCall ExtPoint.win_open_console stEmpty inp0).1 =
      PRes.pexcept "no ConsoleEdit available" :=
  ⟨no_console_fails_amended.1 ExtPoint.tty_clear (by decide) (by decide) stEmpty inp0 rfl,
   no_console_fails_amended.2 stEmpty inp0 rfl⟩

theorem countMenus_cons (m : Menu) (l : List Menu) (s : String) :
    countMenus (m :: l) s = (if m.label = s then 1 else 0) + countMenus l s := by
  by_cases h : m.label = s <;> simp [countMenus, List.filter_cons, h, Nat.add_comm]

theorem countMenus_append (l1 l2 : List Menu) (s : String) :
    countMenus (l1 ++ l2) s = countMenus l1 s + countMenus l2 s := by
  simp [countMenus, List.filter_append]

theorem countMenus_eq_zero {mbar : List Menu} {l : String}
    (h : mbar.any (fun m => m.label = l) = false) : countMenus mbar l = 0 := by
  induction mbar with
  | nil => rfl
  | cons m ms ih =>
    simp only [List.any_cons, Bool.or_eq_false_iff] at h
    rw [countMenus_cons, ih h.2]
    have : ¬(m.label = l) := by simpa using h.1
    simp [this]

theorem insertBeforeMenu_mem {nm : Menu} {b : String} :
    ∀ {l r : List Menu}, insertBeforeMenu nm b l = some r → nm ∈ r := by
  intro l
  induction l with
  | nil => intro r h; simp [insertBeforeMenu] at h
  | cons m ms ih =>
    intro r h
    simp only [insertBeforeMenu] at h
    split at h
    · cases h
      exact List.mem_cons_self _ _
    · cases hr : insertBeforeMenu nm b ms with
      | none => rw [hr] at h; simp at h
      | some r2 =>
        rw [hr] at h
        simp only [Option.map_some'] at h
        cases h
        exact List.mem_cons_of_mem _ (ih hr)

theorem insertBeforeMenu_isSome {nm : Menu} {b : String} :
    ∀ {l : List Menu}, l.any (fun m => m.label = b) = true →
      ∃ r, insertBeforeMenu nm b l = some r := by
  intro l
  induction l with
  | nil => simp
  | cons m ms ih =>
    intro h
    by_cases hm : m.label = b
    · exact ⟨nm :: m :: ms, by simp [insertBeforeMenu, hm]⟩
    · have h2 : ms.any (fun m => m.label = b) = true := by
        simpa [hm] using h
      obtain ⟨r, hr⟩ := ih h2
      exact ⟨m :: r, by simp [insertBeforeMenu, hm, hr]⟩

theorem insertBeforeMenu_count {nm : Menu} {b s : String} :
    ∀ {l r : List Menu}, insertBeforeMenu nm b l = some r →
      countMenus r s = (if nm.label = s then 1 else 0) + countMenus l s := by
  intro l
  induction l with
  | nil => intro r h; simp [insertBeforeMenu] at h
  | cons m ms ih =>
    intro r h
    simp only [insertBeforeMenu] at h
    split at h
    · cases h
      rw [countMenus_cons]
    · cases hr : insertBeforeMenu nm b ms with
      | none => rw [hr] at h; simp at h
      | some r2 =>
        rw [hr] at h
        simp only [Option.map_some'] at h
        cases h
        rw [countMenus_cons, ih hr, countMenus_cons]
        omega

/-- Counterexample for C4: with an unmatched before-anchor that is not
the "-" sentinel, `win_insert_menu` succeeds (returns TRUE) but inserts
nothing, so calling it twice leaves zero menus labelled "File", not
exactly one. -/
theorem insert_menu_twice_counterexample :
    (win_insert_menu_pred stMW inpMenu).1 = PRes.ptrue ∧
    countMenus
      (firstMenubar ((win_insert_menu_pred ((win_insert_menu_pred stMW inpMenu).2) inpMenu).2))
      "File" = 0 :=
  ⟨rfl, rfl⟩

/-- Claim C4 as amended: the menu-bar edit of `win_insert_menu` is
idempotent — the second identical call is always a no-op — and calling
it twice leaves exactly one menu labelled `l` provided no menu with that
label existed before and the insertion actually takes place (the
before-anchor is the "-" sentinel or matches an existing menu title);
with an unmatched non-sentinel anchor the insert is silently skipped. -/
theorem insert_menu_idempotent_amended (mbar : List Menu) (l b : String) :
    insertMenuBar (insertMenuBar mbar l b) l b = insertMenuBar mbar l b ∧
    (mbar.any (fun m => m.label = l) = false →
      (b = "-" ∨ mbar.any (fun m => m.label = b) = true) →
      countMenus (insertMenuBar (insertMenuBar mbar l b) l b) l = 1) := by
  have hidem : insertMenuBar (insertMenuBar mbar l b) l b = insertMenuBar mbar l b := by
    by_cases h1 : mbar.any (fun m => m.label = l) = true
    · simp [insertMenuBar, h1]
    · cases hfind : insertBeforeMenu ⟨l, []⟩ b mbar with
      | some r =>
        have hr1 : insertMenuBar mbar l b = r := by
          simp [insertMenuBar, h1, hfind]
        have hmem : (⟨l, []⟩ : Menu) ∈ r := insertBeforeMenu_mem hfind
        have hany : r.any (fun m => m.label = l) = true := by
          rw [List.any_eq_true]
          exact ⟨⟨l, []⟩, hmem, by simp⟩
        rw [hr1]
        simp [insertMenuBar, hany]
      | none =>
        by_cases hb : b = "-"
        · subst hb
          have hr1 : insertMenuBar mbar l "-" = mbar ++ [⟨l, []⟩] := by
            simp [insertMenuBar, h1, hfind]
          have hany : (mbar ++ [(⟨l, []⟩ : Menu)]).any (fun m => m.label = l) = true := by
            rw [List.any_eq_true]
            exact ⟨⟨l, []⟩, by simp, by simp⟩
          rw [hr1]
          simp [insertMenuBar, hany]
        · have hr1 : insertMenuBar mbar l b = mbar := by
            simp [insertMenuBar, h1, hfind, hb]
          rw [hr1]
          simp [insertMenuBar, h1, hfind, hb]
  refine ⟨hidem, ?_⟩
  intro hno hanchor
  rw [hidem]
  have hzero : countMenus mbar l = 0 := countMenus_eq_zero hno
  have h1 : ¬(mbar.any (fun m => m.label = l) = true) := by simp [hno]
  cases hfind : insertBeforeMenu (⟨l, []⟩ : Menu) b mbar with
  | some r =>
    have : insertMenuBar mbar l b = r := by simp [insertMenuBar, h1, hfind]
    rw [this, insertBeforeMenu_count hfind, hzero]
    simp
  | none =>
    rcases hanchor with hb | hany
    · subst hb
      have : insertMenuBar mbar l "-" = mbar ++ [⟨l, []⟩] := by
        simp [insertMenuBar, h1, hfind]
      rw [this, countMenus_append, hzero]
      simp [countMenus]
    · obtain ⟨r, hr⟩ := @insertBeforeMenu_isSome ⟨l, []⟩ b mbar hany
      rw [hr] at hfind
      cases hfind

/-- Witness for C4's amended claim: inserting "File" twice with the
append sentinel into an empty menu bar yields exactly one "File" menu. -/
theorem insert_menu_idempotent_amended_witness :
    insertMenuBar (insertMenuBar [] "File" "-") "File" "-" = insertMenuBar [] "File" "-" ∧
    countMenus (insertMenuBar (insertMenuBar [] "File" "-") "File" "-") "File" = 1 :=
  ⟨(insert_menu_idempotent_amended [] "File" "-").1,
   (insert_menu_idempotent_amended [] "File" "-").2 (by decide) (Or.inl rfl)⟩

theorem setTipFirst_at (l g tip : String) (ipre ipost : List MItem)
    (h : ∀ it ∈ ipre, itemText it ≠ l) :
    setTipFirst l g (ipre ++ MItem.act l tip :: ipost) = ipre ++ MItem.act l g :: ipost := by
  induction ipre with
  | nil => simp [setTipFirst, itemText, setItemTip]
  | cons it its ih =>
    have h1 : itemText it ≠ l := h it (List.mem_cons_self _ _)
    simp only [List.cons_append, setTipFirst]
    rw [if_neg h1]
    exact congrArg (List.cons it) (ih (fun x hx => h x (List.mem_cons_of_mem _ hx)))

/-- Claim C5: when the named pulldown exists and already contains an
actionable item with the given label (the label being neither the
separator sentinel "--" nor the empty text a separator reads as),
`win_insert_menu_item`'s closure only re-binds that item's stored goal
(its tooltip): the menus before and after the pulldown are untouched,
the pulldown keeps all its items in order, no item is created or
removed, and only the first matching item's tooltip changes to the new
goal. -/
theorem insert_menu_item_update_only (pre post : List Menu) (mi : Menu)
    (ipre ipost : List MItem) (tip pd l b g ctxt : String)
    (hl1 : l ≠ "--")
    (hpre : ∀ m ∈ pre, m.label ≠ pd) (hm : mi.label = pd)
    (hipre : ∀ it ∈ ipre, itemText it ≠ l)
    (hitems : mi.items = ipre ++ MItem.act l tip :: ipost) :
    imiBar pd l b g ctxt (pre ++ mi :: post) =
      pre ++ { mi with items := ipre ++ MItem.act l g :: ipost } :: post := by
  revert hpre
  induction pre with
  | nil =>
    intro _
    have hany : mi.items.any (fun it => itemText it = l) = true := by
      rw [hitems, List.any_eq_true]
      exact ⟨MItem.act l tip, by simp, by simp [itemText]⟩
    have hset : setTipFirst l g mi.items = ipre ++ MItem.act l g :: ipost := by
      rw [hitems]
      exact setTipFirst_at l g tip ipre ipost hipre
    have himi : imiMenu l b g ctxt mi =
        ({ mi with items := ipre ++ MItem.act l g :: ipost }, true) := by
      simp only [imiMenu]
      rw [if_pos ⟨hl1, hany⟩, hset]
    simp [imiBar, hm, himi]
  | cons m pre2 ih =>
    intro hpre
    have hm2 : m.label ≠ pd := hpre m (List.mem_cons_self _ _)
    simp only [List.cons_append, imiBar]
    rw [if_neg hm2]
    exact congrArg (List.cons m) (ih (fun x hx => hpre x (List.mem_cons_of_mem _ hx)))

/-- Witness for C5: re-binding the goal of the existing "Quit" item of a
"File" pulldown changes only that item's stored goal. -/
theorem insert_menu_item_update_only_witness :
    imiBar "File" "Quit" "-" "halt" "win_menu"
        ([] ++ (⟨"File", [MItem.act "Open" "win_menu:open", MItem.act "Quit" "win_menu:quit"]⟩ : Menu) :: []) =
      [] ++ { (⟨"File", [MItem.act "Open" "win_menu:open", MItem.act "Quit" "win_menu:quit"]⟩ : Menu) with
                items := [MItem.act "Open" "win_menu:open"] ++ MItem.act "Quit" "halt" :: [] } :: [] :=
  insert_menu_item_update_only [] []
    ⟨"File", [MItem.act "Open" "win_menu:open", MItem.act "Quit" "win_menu:quit"]⟩
    [MItem.act "Open" "win_menu:open"] [] "win_menu:quit" "File" "Quit" "-" "halt" "win_menu"
    (by decide) (by simp) rfl (by decide) rfl

theorem applyOpts_append (cw chh : Nat) :
    ∀ (l1 l2 : List PTerm) (w w1 : PWindow),
      applyOpts cw chh w l1 = WRes.wtrue w1 →
      applyOpts cw chh w (l1 ++ l2) = applyOpts cw chh w1 l2 := by
  intro l1
  induction l1 with
  | nil =>
    intro l2 w w1 h
    simp only [applyOpts] at h
    cases h
    simp
  | cons o l1' ih =>
    intro l2 w w1 h
    simp only [List.cons_append, applyOpts] at h ⊢
    cases hstep : applyOptStep cw chh w o with
    | scont w2 =>
      simp only [hstep] at h ⊢
      exact ih l2 w2 w1 h
    | sfalse => simp only [hstep] at h; cases h
    | sexc => simp only [hstep] at h; cases h

theorem applyOptStep_unknown (cw chh : Nat) (w : PWindow) (u : PTerm) (ar : Nat) (nm : String)
    (hari : termArity u = some ar) (hnm : termName u = some nm)
    (hunk : knownOpt u = false) :
    applyOptStep cw chh w u = OptStep.sfalse := by
  simp only [knownOpt, hari, hnm] at hunk
  simp only [applyOptStep, hari, hnm]
  split_ifs at hunk ⊢
  all_goals simp_all

theorem applyOptStep_good (cw chh : Nat) (w : PWindow) (o : PTerm) (hg : GoodOpt o) :
    ∃ w1, applyOptStep cw chh w o = OptStep.scont w1 := by
  cases hg with
  | gsize a b => exact ⟨_, rfl⟩
  | gposition a b => exact ⟨_, rfl⟩
  | gzorder z => exact ⟨_, rfl⟩
  | gshow a s h =>
    cases a with
    | patom x => exact ⟨_, rfl⟩
    | pcomp f as => exact ⟨_, rfl⟩
    | pvar => simp [termName] at h
    | pint n => simp [termName] at h
    | pfloat b2 => simp [termName] at h
  | gactivate => exact ⟨_, rfl⟩

theorem applyOpts_good (cw chh : Nat) :
    ∀ (l : List PTerm) (w : PWindow), (∀ o ∈ l, GoodOpt o) →
      ∃ w1, applyOpts cw chh w l = WRes.wtrue w1 := by
  intro l
  induction l with
  | nil => intro w _; exact ⟨w, rfl⟩
  | cons o l' ih =>
    intro w hall
    obtain ⟨w1, h1⟩ := applyOptStep_good cw chh w o (hall o (List.mem_cons_self _ _))
    obtain ⟨w2, h2⟩ := ih w1 (fun x hx => hall x (List.mem_cons_of_mem _ hx))
    exact ⟨w2, by simp only [applyOpts]; rw [h1]; exact h2⟩

/-- Counterexample for C7: the option `show(5)` is a known option under
the claim's own criterion (name "show", arity 1), yet with a live
console the call does not succeed — reading the argument's name throws a
type error, which surfaces as an exception, not success. -/
theorem window_pos_known_counterexample :
    opts0.all knownOpt = true ∧
    (win_window_pos_pred stMW inpShow).1 = PRes.pexcept "type_error" :=
  ⟨rfl, rfl⟩

/-- Claim C7 as amended: with a console and a parent window resolved,
`win_window_pos` succeeds when every option is known and its arguments
are well shaped (`GoodOpt`); the whole call fails (FALSE) at the first
option that is a structurally valid term but not one of the five known
name/arity pairs, provided the options before it applied cleanly; an
ill-shaped argument of a known option instead raises a type-error
exception (see the counterexample). -/
theorem win_window_pos_amended (st : AppState) (inp : CallInputs) (c : ConsoleEdit) (w : PWindow)
    (hc : console_by_thread st.consoles inp.thid = some c)
    (hw : c.parent = some w) :
    ((∀ o ∈ inp.optsList, GoodOpt o) → (win_window_pos_pred st inp).1 = PRes.ptrue) ∧
    (∀ (pre : List PTerm) (u : PTerm) (post : List PTerm) (w2 : PWindow) (ar : Nat) (nm : String),
      inp.optsList = pre ++ u :: post →
      applyOpts c.fontCellW c.fontCellH w pre = WRes.wtrue w2 →
      termArity u = some ar → termName u = some nm → knownOpt u = false →
      (win_window_pos_pred st inp).1 = PRes.pfalse) := by
  constructor
  · intro hall
    obtain ⟨w1, h1⟩ := applyOpts_good c.fontCellW c.fontCellH inp.optsList w hall
    simp [win_window_pos_pred, hc, hw, h1]
  · intro pre u post w2 ar nm hopts hpre hari hnm hunk
    have hfail : applyOpts c.fontCellW c.fontCellH w (pre ++ u :: post) = WRes.wfalse w2 := by
      rw [applyOpts_append c.fontCellW c.fontCellH pre (u :: post) w w2 hpre]
      simp only [applyOpts]
      rw [applyOptStep_unknown c.fontCellW c.fontCellH w2 u ar nm hari hnm hunk]
    simp [win_window_pos_pred, hc, hw, hopts, hfail]

/-- Witness for C7's amended claim: with the single well-shaped option
`size(80,25)` the call succeeds. -/
theorem win_window_pos_amended_witness :
    (win_window_pos_pred stMW inpSize).1 = PRes.ptrue :=
  (win_window_pos_amended stMW inpSize ce0 mw0 rfl rfl).1
    (by
      intro o ho
      rw [show o = PTerm.pcomp "size" [PTerm.pint 80, PTerm.pint 25] by simpa [inpSize, inp0] using ho]
      exact GoodOpt.gsize 80 25)

/-- Claim C10: the option loop of `win_window_pos` applies its options
strictly left to right and is not atomic on failure: when the options
before the first unknown one applied cleanly (yielding window state
`w2`), the call fails — but the already-applied effects `w2` stand and
are not rolled back. -/
theorem win_window_pos_left_to_right (cw chh : Nat) (w w2 : PWindow)
    (pre : List PTerm) (u : PTerm) (post : List PTerm) (ar : Nat) (nm : String)
    (hpre : applyOpts cw chh w pre = WRes.wtrue w2)
    (hari : termArity u = some ar) (hnm : termName u = some nm)
    (hunk : knownOpt u = false) :
    applyOpts cw chh w (pre ++ u :: post) = WRes.wfalse w2 := by
  rw [applyOpts_append cw chh pre (u :: post) w w2 hpre]
  simp only [applyOpts]
  rw [applyOptStep_unknown cw chh w2 u ar nm hari hnm hunk]

/-- Witness for C10: `position(3,4)` is applied (the window has moved to
(3,4)) even though the following unknown option `fullscreen` makes the
call fail. -/
theorem win_window_pos_left_to_right_witness :
    applyOpts 9 16 mw0
        ([PTerm.pcomp "position" [PTerm.pint 3, PTerm.pint 4]] ++ PTerm.patom "fullscreen" :: []) =
      WRes.wfalse { mw0 with px := 3, py := 4 } :=
  win_window_pos_left_to_right 9 16 mw0 { mw0 with px := 3, py := 4 }
    [PTerm.pcomp "position" [PTerm.pint 3, PTerm.pint 4]] (PTerm.patom "fullscreen") []
    0 "fullscreen" rfl rfl rfl rfl
